import Mathlib

/-!
Verification of the websocket-rs frame codec, handshake validation and
message types against their natural-language specification.

The embedding models bytes as `Nat` values; every place the Rust source
stores a value in a machine integer of width `w`, the model reduces
modulo `2 ^ w`.  Byte streams are `List Nat` consumed from the left;
fallible operations return `Except WsError`.
-/

/-- Frame opcodes, from `connection.rs` (`enum Opcode`). -/
inductive Opcode where
  | Continuation
  | Text
  | Binary
  | Close
  | Ping
  | Pong
  deriving DecidableEq

/-- Error taxonomy relevant to the codec, from `error.rs`
(`WebSocketError::Io` and the `InvalidFrame` variants reachable in
`decode`/`encode`). -/
inductive WsError where
  | Io
  | Opcode (raw : Nat)
  | Code (raw : Nat)
  | PayloadSize
  | Inconsistent
  deriving DecidableEq

/-- `impl TryFrom<u8> for Opcode` in `connection.rs`. -/
def opcodeTryFrom (raw : Nat) : Except WsError Opcode :=
  if raw = 0x0 then .ok .Continuation
  else if raw = 0x1 then .ok .Text
  else if raw = 0x2 then .ok .Binary
  else if raw = 0x8 then .ok .Close
  else if raw = 0x9 then .ok .Ping
  else if raw = 0xA then .ok .Pong
  else .error (.Opcode raw)

/-- `impl From<Opcode> for u8` in `connection.rs`. -/
def opcodeToU8 (opcode : Opcode) : Nat :=
  match opcode with
  | .Continuation => 0x0
  | .Text => 0x1
  | .Binary => 0x2
  | .Close => 0x8
  | .Ping => 0x9
  | .Pong => 0xA

/-- `struct RawFrame` in `connection.rs`. -/
structure RawFrame where
  fin : Bool
  opcode : Opcode
  payload : List Nat
  deriving DecidableEq

/-- `enum Mask` in `connection.rs`: the connection role. -/
inductive Mask where
  | Client
  | Server
  deriving DecidableEq

/-- `enum StatusCode` in `connection.rs`. -/
inductive StatusCode where
  | NormalClosure
  | GoingAway
  | ProtocolError
  | UnkownType
  | InconsistentData
  | PolicyViolation
  | MessageTooBig
  | UnexpectedCondition
  deriving DecidableEq

/-- `impl TryFrom<u16> for StatusCode` in `connection.rs`. -/
def statusTryFrom (raw : Nat) : Except WsError StatusCode :=
  if raw = 1000 then .ok .NormalClosure
  else if raw = 1001 then .ok .GoingAway
  else if raw = 1002 then .ok .ProtocolError
  else if raw = 1003 then .ok .UnkownType
  else if raw = 1007 then .ok .InconsistentData
  else if raw = 1008 then .ok .PolicyViolation
  else if raw = 1009 then .ok .MessageTooBig
  else if raw = 1011 then .ok .UnexpectedCondition
  else .error (.Code raw)

/-- `impl From<StatusCode> for u16` in `connection.rs`.  The
`UnexpectedCondition` arm executes `unreachable!()`, which panics; the
panic is modelled as `none`. -/
def statusToU16 (status : StatusCode) : Option Nat :=
  match status with
  | .NormalClosure => some 1000
  | .GoingAway => some 1001
  | .ProtocolError => some 1002
  | .UnkownType => some 1003
  | .InconsistentData => some 1007
  | .PolicyViolation => some 1008
  | .MessageTooBig => some 1009
  | .UnexpectedCondition => none

/-- `MAX_FRAME_PAYLOAD_SIZE` in `connection.rs`. -/
def MAX_FRAME_PAYLOAD_SIZE : Nat := 16 * 1024 * 1024

/-- Big-endian bytes of a `u16` (`tokio` `write_u16`). -/
def u16Bytes (n : Nat) : List Nat :=
  [n / 2 ^ 8 % 256, n % 256]

/-- Big-endian bytes of a `u32` (`u32::to_be_bytes`, `tokio` `write_u32`). -/
def u32Bytes (n : Nat) : List Nat :=
  [n / 2 ^ 24 % 256, n / 2 ^ 16 % 256, n / 2 ^ 8 % 256, n % 256]

/-- Big-endian bytes of a `u64` (`tokio` `write_u64`). -/
def u64Bytes (n : Nat) : List Nat :=
  [n / 2 ^ 56 % 256, n / 2 ^ 48 % 256, n / 2 ^ 40 % 256, n / 2 ^ 32 % 256,
   n / 2 ^ 24 % 256, n / 2 ^ 16 % 256, n / 2 ^ 8 % 256, n % 256]

/-- `tokio` `read_u8`: one byte from the stream, `Io` error on a short
read. -/
def readU8 (s : List Nat) : Except WsError (Nat × List Nat) :=
  match s with
  | b :: rest => .ok (b % 256, rest)
  | [] => .error .Io

/-- `tokio` `read_u16`: two bytes, big-endian. -/
def readU16 (s : List Nat) : Except WsError (Nat × List Nat) :=
  match s with
  | b1 :: b2 :: rest => .ok ((b1 % 256) * 2 ^ 8 + b2 % 256, rest)
  | _ => .error .Io

/-- `tokio` `read_u32`: four bytes, big-endian. -/
def readU32 (s : List Nat) : Except WsError (Nat × List Nat) :=
  match s with
  | b1 :: b2 :: b3 :: b4 :: rest =>
      .ok ((b1 % 256) * 2 ^ 24 + (b2 % 256) * 2 ^ 16 + (b3 % 256) * 2 ^ 8
            + b4 % 256, rest)
  | _ => .error .Io

/-- `tokio` `read_u64`: eight bytes, big-endian. -/
def readU64 (s : List Nat) : Except WsError (Nat × List Nat) :=
  match s with
  | b1 :: b2 :: b3 :: b4 :: b5 :: b6 :: b7 :: b8 :: rest =>
      .ok ((b1 % 256) * 2 ^ 56 + (b2 % 256) * 2 ^ 48 + (b3 % 256) * 2 ^ 40
            + (b4 % 256) * 2 ^ 32 + (b5 % 256) * 2 ^ 24 + (b6 % 256) * 2 ^ 16
            + (b7 % 256) * 2 ^ 8 + b8 % 256, rest)
  | _ => .error .Io

/-- `tokio` `read_exact` into a buffer of length `n`: consumes exactly
`n` bytes, `Io` error when fewer are available. -/
def readExact (n : Nat) (s : List Nat) : Except WsError (List Nat × List Nat) :=
  if s.length < n then .error .Io else .ok (s.take n, s.drop n)

/-- The bit-7 test `(octet >> 7) & 1 != 0` used by `decode` for both the
`fin` bit and the mask bit. -/
def bit7 (octet : Nat) : Bool :=
  (octet >>> 7) &&& 1 != 0

/-- The reserved-bits test `(octet >> 4) & 0b111 != 0` in `decode`. -/
def rsvBitsSet (octet : Nat) : Bool :=
  (octet >>> 4) &&& 0b111 != 0

/-- Processing of the first header octet in `Manager::decode`
(`connection.rs` lines 212-223): `fin` extraction, reserved-bits check,
opcode parse, and the `(fin, opcode)` legality match. -/
def decodeFirstOctet (octet : Nat) : Except WsError (Bool × Opcode) :=
  let fin := bit7 octet
  if rsvBitsSet octet then .error .Inconsistent
  else
    match opcodeTryFrom (octet &&& 0xF) with
    | .error e => .error e
    | .ok opcode =>
      match fin, opcode with
      | false, .Ping | false, .Pong | false, .Close
      | true, .Continuation => .error .Inconsistent
      | fin, opcode => .ok (fin, opcode)

/-- The masking-bit role check in `Manager::decode` (lines 227-231). -/
def maskCheck (mask : Mask) (masked : Bool) : Except WsError Unit :=
  match mask, masked with
  | .Client, false => .ok ()
  | .Server, true => .ok ()
  | _, _ => .error .PayloadSize

/-- `xor_payload` in `connection.rs`: each payload byte is xored with
`masking_key.to_be_bytes()[i % 4]`, `i` being the byte's index.  The
source runs this with a parallel iterator; the result is the same as
this sequential map. -/
def xorPayloadGo (keyBytes : List Nat) (i : Nat) : List Nat → List Nat
  | [] => []
  | b :: rest => (b ^^^ keyBytes.getD (i % 4) 0) :: xorPayloadGo keyBytes (i + 1) rest

/-- Entry point of `xor_payload`. -/
def xor_payload (masking_key : Nat) (payload : List Nat) : List Nat :=
  xorPayloadGo (u32Bytes (masking_key % 2 ^ 32)) 0 payload

/-- `Manager::decode` in `connection.rs` (lines 211-269), translated
byte-for-byte.  Two places keep the source's `u8` arithmetic:
`octet ^ (1 << 8)` is rendered with `1 <<< 8` reduced modulo `2 ^ 8`
(the shifted bit leaves the byte), and the payload read mirrors
`BytesMut::with_capacity(payload_length)` — a buffer of length 0 — so
`read_exact` fills a 0-byte slice and consumes nothing. -/
def decode (mask : Mask) (s : List Nat) : Except WsError (RawFrame × List Nat) := do
  let (octet, s) ← readU8 s
  let (fin, opcode) ← decodeFirstOctet octet
  let (octet2, s) ← readU8 s
  let masked := bit7 octet2
  let _ ← maskCheck mask masked
  let possible_payload_length := octet2 ^^^ ((1 <<< 8) % 2 ^ 8)
  let (payload_length, s) ←
    if possible_payload_length ≤ 125 then
      Except.ok (possible_payload_length, s)
    else if possible_payload_length = 126 then readU16 s
    else if possible_payload_length = 127 then readU64 s
    else Except.error WsError.Inconsistent
  if payload_length > MAX_FRAME_PAYLOAD_SIZE then
    Except.error WsError.PayloadSize
  else do
    let (masking_key, s) ←
      match mask with
      | .Server => do
          let (k, s) ← readU32 s
          Except.ok (some k, s)
      | .Client => Except.ok (none, s)
    let (payload, s) ←
      if payload_length > 0 then do
        let (buf, s) ← readExact 0 s
        let buf :=
          match mask with
          | .Server => xor_payload (masking_key.getD 0) buf
          | .Client => buf
        Except.ok (buf, s)
      else
        Except.ok (([] : List Nat), s)
    Except.ok ({ fin := fin, opcode := opcode, payload := payload }, s)

/-- `Manager::encode` in `connection.rs` (lines 271-307), translated
byte-for-byte; returns the bytes written to the stream.  `masking_key`
stands for the `rand::random::<u32>()` sample (used only by the client
role).  The source's `(fin << 8) | opcode` and `masked << 8` are `u8`
computations: the shifted bit leaves the byte, which the model renders
by reducing the shift modulo `2 ^ 8`. -/
def encode (mask : Mask) (masking_key : Nat) (raw_frame : RawFrame) : List Nat :=
  let fin := if raw_frame.fin then 1 else 0
  let octet := ((fin <<< 8) % 2 ^ 8) ||| opcodeToU8 raw_frame.opcode
  let masked :=
    match mask with
    | .Client => 1
    | .Server => 0
  let payload_length := raw_frame.payload.length
  let octet2 := ((masked <<< 8) % 2 ^ 8) |||
    (if payload_length ≤ 125 then payload_length
     else if payload_length ≤ 0xFFFF then 126
     else 127)
  let extendedLength :=
    if payload_length ≤ 125 then []
    else if payload_length ≤ 0xFFFF then u16Bytes payload_length
    else u64Bytes (payload_length % 2 ^ 64)
  let keyAndPayload :=
    match mask with
    | .Client =>
        u32Bytes (masking_key % 2 ^ 32)
          ++ (if payload_length > 0 then xor_payload masking_key raw_frame.payload else [])
    | .Server => if payload_length > 0 then raw_frame.payload else []
  octet :: octet2 :: extendedLength ++ keyAndPayload

/-- Spec-side predicate: Close, Ping and Pong are the control opcodes. -/
def isControl (opcode : Opcode) : Bool :=
  match opcode with
  | .Close | .Ping | .Pong => true
  | _ => false

/-! ## Handshake model (`handshake.rs`) -/

/-- ASCII bytes of a string literal (all literals used here are ASCII). -/
def strBytes (s : String) : List Nat :=
  s.toList.map Char.toNat

/-- ASCII lower-casing of one byte (`u8::to_ascii_lowercase`). -/
def toLowerByte (b : Nat) : Nat :=
  if 65 ≤ b ∧ b ≤ 90 then b + 32 else b

/-- `str::eq_ignore_ascii_case`, used by `HeaderObserver::is_key`. -/
def eqIgnoreAsciiCase (a b : List Nat) : Bool :=
  a.map toLowerByte == b.map toLowerByte

/-- One parsed HTTP header (`httparse::Header`): a name and a value. -/
structure HttpHeader where
  name : List Nat
  value : List Nat

/-- A parsed HTTP request (`httparse::Request`): the fields
`ServerHanshake::from_request` inspects. -/
structure HttpRequest where
  method : Option (List Nat)
  path : Option (List Nat)
  version : Option Nat
  headers : List HttpHeader

/-- Value of one symbol of the standard base64 alphabet. -/
def b64Val (c : Nat) : Option Nat :=
  if 65 ≤ c ∧ c ≤ 90 then some (c - 65)
  else if 97 ≤ c ∧ c ≤ 122 then some (c - 97 + 26)
  else if 48 ≤ c ∧ c ≤ 57 then some (c - 48 + 52)
  else if c = 43 then some 62
  else if c = 47 then some 63
  else none

/-- Quad-wise decoding for `BASE64_STANDARD.decode`: four symbols give
three bytes; the final quad may carry one or two `=` (byte 61) padding
symbols, whose discarded trailing bits must be zero; padding anywhere
else is rejected. -/
def b64Quads : List Nat → Option (List Nat)
  | [] => some []
  | c1 :: c2 :: c3 :: c4 :: rest =>
    match b64Val c1, b64Val c2 with
    | some v1, some v2 =>
      if c3 = 61 then
        if c4 = 61 ∧ rest = [] then
          if v2 % 16 = 0 then some [v1 * 4 + v2 / 16] else none
        else none
      else
        match b64Val c3 with
        | some v3 =>
          if c4 = 61 then
            if rest = [] ∧ v3 % 4 = 0 then
              some [v1 * 4 + v2 / 16, v2 % 16 * 16 + v3 / 4]
            else none
          else
            match b64Val c4 with
            | some v4 =>
                (b64Quads rest).map
                  ([v1 * 4 + v2 / 16, v2 % 16 * 16 + v3 / 4, v3 % 4 * 64 + v4] ++ ·)
            | none => none
        | none => none
    | _, _ => none
  | _ => none

/-- `BASE64_STANDARD.decode` (standard alphabet, canonical padding
required): the input length must be a multiple of four. -/
def b64Decode (s : List Nat) : Option (List Nat) :=
  if s.length % 4 = 0 then b64Quads s else none

/-- The header counters and captured key of
`ServerHanshake::from_request`: `contains_headers` (five counters
starting at 0) and `encoded_key` (starting as the one-byte slice
`&[0]`). -/
structure HsState where
  host : Nat
  upgrade : Nat
  conn : Nat
  key : Nat
  version : Nat
  keyVal : List Nat

/-- Guard of the `Host` arm in `from_request`. -/
def hsHostCond (h : HttpHeader) : Bool :=
  eqIgnoreAsciiCase h.name (strBytes "Host")

/-- Guard of the `Upgrade: websocket` arm. -/
def hsUpgradeCond (h : HttpHeader) : Bool :=
  eqIgnoreAsciiCase h.name (strBytes "Upgrade") && h.value == strBytes "websocket"

/-- Guard of the `Connection: Upgrade` arm. -/
def hsConnCond (h : HttpHeader) : Bool :=
  eqIgnoreAsciiCase h.name (strBytes "Connection") && h.value == strBytes "Upgrade"

/-- Guard of the `Sec-WebSocket-Key` arm: the name matches and the
value decodes as base64 (`BASE64_STANDARD.decode(h.value).is_ok()`);
no constraint on the decoded length. -/
def hsKeyCond (h : HttpHeader) : Bool :=
  eqIgnoreAsciiCase h.name (strBytes "Sec-WebSocket-Key") && (b64Decode h.value).isSome

/-- Guard of the `Sec-WebSocket-Version: 13` arm. -/
def hsVersionCond (h : HttpHeader) : Bool :=
  eqIgnoreAsciiCase h.name (strBytes "Sec-WebSocket-Version") && h.value == strBytes "13"

/-- One step of the `for_each` over the request headers in
`from_request`: the else-if chain bumping `contains_headers` and
capturing the key. -/
def hsStep (st : HsState) (h : HttpHeader) : HsState :=
  if hsHostCond h then { st with host := st.host + 1 }
  else if hsUpgradeCond h then { st with upgrade := st.upgrade + 1 }
  else if hsConnCond h then { st with conn := st.conn + 1 }
  else if hsKeyCond h then { st with key := st.key + 1, keyVal := h.value }
  else if hsVersionCond h then { st with version := st.version + 1 }
  else st

/-- `ServerHanshake::from_request` (`handshake.rs` lines 218-252):
requires method `GET`, path `/` and HTTP version 1.1, folds the header
chain, and accepts when all five counters are positive, returning the
captured `Sec-WebSocket-Key` value. -/
def from_request (r : HttpRequest) : Option (List Nat) :=
  if r.method = some (strBytes "GET") ∧ r.path = some (strBytes "/")
      ∧ r.version = some 1 then
    let final := r.headers.foldl hsStep ⟨0, 0, 0, 0, 0, [0]⟩
    if final.host > 0 ∧ final.upgrade > 0 ∧ final.conn > 0 ∧ final.key > 0
        ∧ final.version > 0 then
      some final.keyVal
    else none
  else none

/-- A concrete upgrade request whose `Sec-WebSocket-Key` is `AAAA`,
which base64-decodes to the three bytes `[0, 0, 0]`. -/
def reqShortKey : HttpRequest :=
  { method := some (strBytes "GET")
    path := some (strBytes "/")
    version := some 1
    headers :=
      [ ⟨strBytes "Host", strBytes "example.com:80"⟩
      , ⟨strBytes "Upgrade", strBytes "websocket"⟩
      , ⟨strBytes "Connection", strBytes "Upgrade"⟩
      , ⟨strBytes "Sec-WebSocket-Key", strBytes "AAAA"⟩
      , ⟨strBytes "Sec-WebSocket-Version", strBytes "13"⟩ ] }

/-! ## Message values (`message.rs`) -/

/-- Unicode scalar values: the values a Rust `char` can hold. -/
def isScalar (c : Nat) : Bool :=
  decide (c < 0xD800 ∨ (0xE000 ≤ c ∧ c ≤ 0x10FFFF))

/-- Continuation-byte test `0x80..=0xBF`. -/
def isCont (b : Nat) : Bool :=
  decide (0x80 ≤ b ∧ b ≤ 0xBF)

/-- Allowed second byte after a three-byte leader, as in
`core::str::validations` (`0xE0` excludes overlong forms, `0xED`
excludes surrogates). -/
def cont3Ok (b b2 : Nat) : Bool :=
  if b = 0xE0 then decide (0xA0 ≤ b2 ∧ b2 ≤ 0xBF)
  else if b = 0xED then decide (0x80 ≤ b2 ∧ b2 ≤ 0x9F)
  else isCont b2

/-- Allowed second byte after a four-byte leader (`0xF0` excludes
overlong forms, `0xF4` excludes values above `U+10FFFF`). -/
def cont4Ok (b b2 : Nat) : Bool :=
  if b = 0xF0 then decide (0x90 ≤ b2 ∧ b2 ≤ 0xBF)
  else if b = 0xF4 then decide (0x80 ≤ b2 ∧ b2 ≤ 0x8F)
  else isCont b2

/-- One step of the UTF-8 validation table of `core::str` (used by
`str::from_utf8` and by the `chars` view of a `str`): reads the byte
sequence of one scalar value from `b :: rest`, returning the scalar and
the remaining bytes, or `none` when validation fails at this
position. -/
def utf8Step (b : Nat) (rest : List Nat) : Option (Nat × List Nat) :=
  if b ≤ 0x7F then some (b, rest)
  else if 0xC2 ≤ b ∧ b ≤ 0xDF then
    match rest with
    | b2 :: rest2 =>
      if isCont b2 then
        some (((b &&& 0x1F) <<< 6) ||| (b2 &&& 0x3F), rest2)
      else none
    | [] => none
  else if 0xE0 ≤ b ∧ b ≤ 0xEF then
    match rest with
    | b2 :: b3 :: rest3 =>
      if cont3Ok b b2 ∧ isCont b3 then
        some (((b &&& 0xF) <<< 12) ||| ((b2 &&& 0x3F) <<< 6) ||| (b3 &&& 0x3F), rest3)
      else none
    | _ => none
  else if 0xF0 ≤ b ∧ b ≤ 0xF4 then
    match rest with
    | b2 :: b3 :: b4 :: rest4 =>
      if cont4Ok b b2 ∧ isCont b3 ∧ isCont b4 then
        some (((b &&& 0x7) <<< 18) ||| ((b2 &&& 0x3F) <<< 12)
                ||| ((b3 &&& 0x3F) <<< 6) ||| (b4 &&& 0x3F), rest4)
      else none
    | _ => none
  else none

/-- UTF-8 decoding of a byte list into scalar values, iterating
`utf8Step`: `none` exactly when validation fails. -/
def utf8Decode (raw : List Nat) : Option (List Nat) :=
  match raw with
  | [] => some []
  | b :: rest =>
    match hstep : utf8Step b rest with
    | some (c, rest2) => (utf8Decode rest2).map (c :: ·)
    | none => none
termination_by raw.length
decreasing_by
  simp only [List.length_cons]
  have hle : rest2.length ≤ rest.length := by
    unfold utf8Step at hstep
    repeat' split at hstep
    all_goals simp_all
    all_goals omega
  omega

/-- UTF-8 encoding of one scalar value (`char::encode_utf8`). -/
def utf8EncodeChar (c : Nat) : List Nat :=
  if c < 0x80 then [c]
  else if c < 0x800 then
    [0xC0 ||| (c >>> 6), 0x80 ||| (c &&& 0x3F)]
  else if c < 0x10000 then
    [0xE0 ||| (c >>> 12), 0x80 ||| ((c >>> 6) &&& 0x3F), 0x80 ||| (c &&& 0x3F)]
  else
    [0xF0 ||| (c >>> 18), 0x80 ||| ((c >>> 12) &&& 0x3F),
     0x80 ||| ((c >>> 6) &&& 0x3F), 0x80 ||| (c &&& 0x3F)]

/-- UTF-8 encoding of a scalar-value list (`str::as_bytes` of the
string holding those chars). -/
def utf8Encode (s : List Nat) : List Nat :=
  (s.map utf8EncodeChar).flatten

/-- `struct Text` in `message.rs`: a byte buffer. -/
structure Text where
  bytes : List Nat
  deriving DecidableEq

/-- `impl TryFrom<&[u8]> for Text`: runs `str::from_utf8` on the input
and keeps the bytes on success. -/
def textTryFromBytes (raw : List Nat) : Option Text :=
  match utf8Decode raw with
  | some _ => some ⟨raw⟩
  | none => none

/-- `impl From<&str> for Text`: copies the string's bytes; a `&str`
holding scalars `s` has bytes `utf8Encode s`. -/
def textFromStr (s : List Nat) : Text :=
  ⟨utf8Encode s⟩

/-- `Text::as_str`: `str::from_utf8_unchecked` reinterprets the bytes
as a string; the string read back from the bytes is their UTF-8
decoding, defined only when the bytes are valid. -/
def textAsStr (t : Text) : Option (List Nat) :=
  utf8Decode t.bytes

deriving instance DecidableEq for Except

/-! ## Helper lemmas -/

@[simp]
theorem exceptBindOk {α β ε : Type} (a : α) (f : α → Except ε β) :
    (Except.ok a >>= f) = f a := rfl

@[simp]
theorem exceptBindError {α β ε : Type} (e : ε) (f : α → Except ε β) :
    ((Except.error e : Except ε α) >>= f) = Except.error e := rfl

/-- A failure while handling the first header octet makes `decode` fail
with the same error, whatever the role and the rest of the stream. -/
theorem decode_of_firstOctet_error {o : Nat} {e : WsError}
    (ho : o < 256) (he : decodeFirstOctet o = .error e) (mask : Mask)
    (rest : List Nat) : decode mask (o :: rest) = .error e := by
  simp [decode, readU8, Nat.mod_eq_of_lt ho, he]

/-! ## Claim theorems -/

/-- Claim C1 (code bug evaluation): encoding the frame
`{fin := true, opcode := Text, payload := []}` with the server role and
decoding the produced bytes with the client role yields a frame with
`fin = false`: the round-trip does not recover `f`, because `encode`
computes the first octet as `(fin << 8) | opcode` on a `u8`, shifting
the fin bit out of the byte. -/
theorem roundtrip_fin_lost :
    encode .Server 0 ⟨true, .Text, []⟩ = [0x01, 0x00] ∧
    decode .Client (encode .Server 0 ⟨true, .Text, []⟩)
      = .ok (⟨false, .Text, []⟩, []) ∧
    (⟨false, .Text, []⟩ : RawFrame) ≠ ⟨true, .Text, []⟩ := by
  refine ⟨rfl, rfl, ?_⟩
  decide

/-- Claim C2 (code bug evaluation): with the server role, a well-formed
masked frame header (first octet `0x82`, second octet `0x85`, so
`len7 = 5`) makes `decode` fail with `Inconsistent` instead of
resolving the length to 5: `octet ^ (1 << 8)` on a `u8` leaves the mask
bit in place, and the masked octet value 133 matches no length arm. -/
theorem decode_masked_length_inconsistent :
    decode .Server [0x82, 0x85, 0x00, 0x00, 0x00, 0x00, 1, 2, 3, 4, 5]
      = .error .Inconsistent := by
  rfl

/-- Claim C3 (code bug evaluation): `encode` loses both the fin bit and
the mask bit, because `(fin << 8) | opcode` and `masked << 8` shift
them out of the `u8`.  A server-role final Continuation frame is
written as first octet `0x00` instead of `0x80`, and a client-role
final Text frame gets second octet `0x00` — mask bit clear — followed
by the four key bytes. -/
theorem encode_fin_mask_bits_lost :
    encode .Server 0 ⟨true, .Continuation, []⟩ = [0x00, 0x00] ∧
    encode .Client 0 ⟨true, .Text, []⟩ = [0x01, 0x00, 0, 0, 0, 0] := by
  exact ⟨rfl, rfl⟩

/-- Claim C4 (code bug evaluation): decoding an unmasked Text frame
declaring payload length 1 followed by the payload byte `0x41` returns
an empty payload and leaves `0x41` unconsumed in the stream:
`BytesMut::with_capacity(1)` has length 0, so `read_exact` fills a
0-byte slice. -/
theorem decode_reads_no_payload :
    decode .Client [0x81, 0x01, 0x41] = .ok (⟨true, .Text, []⟩, [0x41]) := by
  rfl

/-- Claim C5 (counterexample): a Continuation frame with `fin = true`
(first octet `0x80`) is rejected by `decode` with `Inconsistent`,
against the claim that it is accepted at the codec level. -/
theorem continuation_fin_true_rejected :
    decode .Client [0x80, 0x00] = .error .Inconsistent := by
  rfl

/-- Claim C7 (counterexample): an unmasked Close frame declaring a
200-byte payload via the 126/u16 length form decodes successfully —
no `Inconsistent` is raised for a control payload above 125 bytes. -/
theorem large_control_frame_accepted :
    decode .Client [0x88, 126, 0, 200] = .ok (⟨true, .Close, []⟩, []) := by
  rfl

/-- Claim C6 (counterexample): the upgrade request `reqShortKey`, whose
`Sec-WebSocket-Key` is `AAAA` and base64-decodes to the three bytes
`[0, 0, 0]`, is accepted by `from_request`, against the claim that a
key not decoding to exactly 16 bytes is rejected. -/
theorem short_key_request_accepted :
    from_request reqShortKey = some (strBytes "AAAA") ∧
    b64Decode (strBytes "AAAA") = some [0, 0, 0] := by
  exact ⟨by decide, by decide⟩

/-- Claim C9 (code bug evaluation): every `StatusCode` variant except
`UnexpectedCondition` converts to its listed wire value and back;
converting `UnexpectedCondition` executes `unreachable!()` (modelled as
`none`) although `TryFrom<u16>` maps 1011 to it; `TryFrom<u16>` rejects
the reserved codes 1005 and 1006 with `Code`. -/
theorem status_code_mapping :
    statusToU16 .NormalClosure = some 1000 ∧
    statusToU16 .GoingAway = some 1001 ∧
    statusToU16 .ProtocolError = some 1002 ∧
    statusToU16 .UnkownType = some 1003 ∧
    statusToU16 .InconsistentData = some 1007 ∧
    statusToU16 .PolicyViolation = some 1008 ∧
    statusToU16 .MessageTooBig = some 1009 ∧
    statusToU16 .UnexpectedCondition = none ∧
    statusTryFrom 1000 = .ok .NormalClosure ∧
    statusTryFrom 1001 = .ok .GoingAway ∧
    statusTryFrom 1002 = .ok .ProtocolError ∧
    statusTryFrom 1003 = .ok .UnkownType ∧
    statusTryFrom 1007 = .ok .InconsistentData ∧
    statusTryFrom 1008 = .ok .PolicyViolation ∧
    statusTryFrom 1009 = .ok .MessageTooBig ∧
    statusTryFrom 1011 = .ok .UnexpectedCondition ∧
    statusTryFrom 1005 = .error (.Code 1005) ∧
    statusTryFrom 1006 = .error (.Code 1006) := by
  exact ⟨rfl, rfl, rfl, rfl, rfl, rfl, rfl, rfl, rfl, rfl, rfl, rfl, rfl, rfl,
    rfl, rfl, rfl, rfl⟩

set_option maxRecDepth 4000 in
/-- Rejection of control opcodes without `fin` happens already in the
first-octet handling, for any byte whose opcode nibble is 8, 9 or 10
and whose bit 7 is clear. -/
theorem ctl_reject : ∀ x, x < 256 →
    (!bit7 x && (x &&& 0xF == 8 || x &&& 0xF == 9 || x &&& 0xF == 10)) = true →
    decodeFirstOctet x = .error .Inconsistent := by decide

set_option maxRecDepth 4000 in
/-- Rejection of Continuation with `fin = true` happens already in the
first-octet handling. -/
theorem cont_reject : ∀ x, x < 256 → (bit7 x && (x &&& 0xF == 0)) = true →
    decodeFirstOctet x = .error .Inconsistent := by decide

theorem nib_close : ∀ y, y < 16 → opcodeTryFrom y = .ok Opcode.Close → y = 8 := by
  decide

theorem nib_ping : ∀ y, y < 16 → opcodeTryFrom y = .ok Opcode.Ping → y = 9 := by
  decide

theorem nib_pong : ∀ y, y < 16 → opcodeTryFrom y = .ok Opcode.Pong → y = 10 := by
  decide

theorem nib_cont : ∀ y, y < 16 → opcodeTryFrom y = .ok Opcode.Continuation → y = 0 := by
  decide

/-- A counter of the header fold never moves while its guard is false on
every folded header. -/
theorem foldl_proj_stable (proj : HsState → Nat) (cond : HttpHeader → Bool)
    (hstep : ∀ st h, cond h = false → proj (hsStep st h) = proj st) :
    ∀ (hs : List HttpHeader) (st : HsState), (∀ h ∈ hs, cond h = false) →
      proj (List.foldl hsStep st hs) = proj st := by
  intro hs
  induction hs with
  | nil => intro st _; rfl
  | cons h t ih =>
    intro st hall
    rw [List.foldl_cons, ih (hsStep st h) fun x hx => hall x (List.mem_cons_of_mem h hx),
      hstep st h (hall h (List.mem_cons_self h t))]

theorem stable_host : ∀ st h, hsHostCond h = false → (hsStep st h).host = st.host := by
  intro st h hc
  simp only [hsStep, hc, Bool.false_eq_true, if_false]
  repeat' split
  all_goals rfl

theorem stable_upgrade : ∀ st h, hsUpgradeCond h = false →
    (hsStep st h).upgrade = st.upgrade := by
  intro st h hc
  simp only [hsStep, hc, Bool.false_eq_true, if_false]
  repeat' split
  all_goals rfl

theorem stable_conn : ∀ st h, hsConnCond h = false → (hsStep st h).conn = st.conn := by
  intro st h hc
  simp only [hsStep, hc, Bool.false_eq_true, if_false]
  repeat' split
  all_goals rfl

theorem stable_key : ∀ st h, hsKeyCond h = false → (hsStep st h).key = st.key := by
  intro st h hc
  simp only [hsStep, hc, Bool.false_eq_true, if_false]
  repeat' split
  all_goals rfl

theorem stable_version : ∀ st h, hsVersionCond h = false →
    (hsStep st h).version = st.version := by
  intro st h hc
  simp only [hsStep, hc, Bool.false_eq_true, if_false]
  repeat' split
  all_goals rfl

set_option maxRecDepth 4000 in
/-- Claim C8: `decode` fails with `Inconsistent` at the reserved-bit
check exactly when one of bits 4..6 of the first header octet is set;
the fin bit and the opcode nibble never fire the check, and when it
fires the whole `decode` returns `Inconsistent` for either role and any
remaining stream. -/
theorem rsv_bits_exact (o1 : Nat) (h : o1 < 256) :
    (rsvBitsSet o1 = true ↔ (o1.testBit 4 ∨ o1.testBit 5 ∨ o1.testBit 6)) ∧
    (rsvBitsSet o1 = true → ∀ (mask : Mask) (rest : List Nat),
      decode mask (o1 :: rest) = .error .Inconsistent) := by
  constructor
  · exact (by decide :
      ∀ x, x < 256 → (rsvBitsSet x = true ↔ (x.testBit 4 ∨ x.testBit 5 ∨ x.testBit 6))) o1 h
  · intro hset mask rest
    apply decode_of_firstOctet_error h _ mask rest
    simp [decodeFirstOctet, hset]

/-- Witness for C8 at the concrete first octet `0x10` (RSV3 set). -/
theorem rsv_bits_exact_witness :
    (rsvBitsSet 0x10 = true ↔
      (Nat.testBit 0x10 4 ∨ Nat.testBit 0x10 5 ∨ Nat.testBit 0x10 6)) ∧
    decode .Client [0x10] = .error .Inconsistent :=
  ⟨(rsv_bits_exact 0x10 (by decide)).1,
   (rsv_bits_exact 0x10 (by decide)).2 (by decide) .Client []⟩

/-- Claim C5 (amended): `decode` rejects with `Inconsistent` every frame
whose opcode parses as a control opcode while the fin bit is clear, and
also every Continuation frame whose fin bit is set; a Continuation frame
with `fin = false` does pass the codec-level legality check, as the
successful decoding of `[0x00, 0x00]` shows. -/
theorem fin_opcode_legality :
    (∀ (mask : Mask) (o1 : Nat) (rest : List Nat) (op : Opcode), o1 < 256 →
      bit7 o1 = false → opcodeTryFrom (o1 &&& 0xF) = .ok op → isControl op = true →
      decode mask (o1 :: rest) = .error .Inconsistent) ∧
    (∀ (mask : Mask) (o1 : Nat) (rest : List Nat), o1 < 256 →
      bit7 o1 = true → opcodeTryFrom (o1 &&& 0xF) = .ok .Continuation →
      decode mask (o1 :: rest) = .error .Inconsistent) ∧
    decode .Client [0x00, 0x00] = .ok (⟨false, .Continuation, []⟩, []) := by
  have hy : ∀ x : Nat, x &&& 0xF < 16 := fun x =>
    lt_of_le_of_lt Nat.and_le_right (by norm_num)
  refine ⟨?_, ?_, rfl⟩
  · intro mask o1 rest op h hfin hop hctl
    apply decode_of_firstOctet_error h _ mask rest
    cases op <;> simp [isControl] at hctl
    · exact ctl_reject o1 h (by simp [hfin, nib_close _ (hy o1) hop])
    · exact ctl_reject o1 h (by simp [hfin, nib_ping _ (hy o1) hop])
    · exact ctl_reject o1 h (by simp [hfin, nib_pong _ (hy o1) hop])
  · intro mask o1 rest h hfin hop
    exact decode_of_firstOctet_error h
      (cont_reject o1 h (by simp [hfin, nib_cont _ (hy o1) hop])) mask rest

/-- Witness for C5 at the concrete octets `0x09` (Ping without fin) and
`0x80` (Continuation with fin), both on the server role. -/
theorem fin_opcode_legality_witness :
    decode .Server [0x09] = .error .Inconsistent ∧
    decode .Server [0x80] = .error .Inconsistent :=
  ⟨fin_opcode_legality.1 .Server 0x09 [] .Ping (by decide) (by decide)
     (by decide) (by decide),
   fin_opcode_legality.2.1 .Server 0x80 [] (by decide) (by decide) (by decide)⟩

/-- Claim C7 (amended): `decode` enforces no 125-byte cap on control
frames.  Any unmasked control frame with fin set that declares its
payload length in the 126/u16 form — so any resolved length from 126 to
65535, all below `MAX_FRAME_PAYLOAD_SIZE` — is decoded successfully
rather than rejected with `Inconsistent`. -/
theorem control_no_length_cap (op : Opcode) (hi lo : Nat) (rest : List Nat)
    (hop : isControl op = true) (hhi : hi < 256) (hlo : lo < 256)
    (hlen : 125 < hi * 256 + lo) :
    decode .Client ((0x80 ||| opcodeToU8 op) :: 126 :: hi :: lo :: rest)
      = .ok (⟨true, op, []⟩, rest) := by
  have hmax : ¬ MAX_FRAME_PAYLOAD_SIZE < hi * 256 + lo := by
    simp only [MAX_FRAME_PAYLOAD_SIZE]
    omega
  have hpos : 0 < hi * 256 + lo := by omega
  have h88 : decodeFirstOctet 0x88 = .ok (true, .Close) := by decide
  have h89 : decodeFirstOctet 0x89 = .ok (true, .Ping) := by decide
  have h8A : decodeFirstOctet 0x8A = .ok (true, .Pong) := by decide
  cases op <;> simp [isControl] at hop <;>
    simp [decode, readU8, readU16, readExact, bit7, maskCheck, opcodeToU8,
      h88, h89, h8A, Nat.mod_eq_of_lt hhi, Nat.mod_eq_of_lt hlo, hmax, hpos]

/-- Witness for C7: a Ping frame declaring 256 payload bytes decodes
successfully. -/
theorem control_no_length_cap_witness :
    decode .Client ((0x80 ||| opcodeToU8 .Ping) :: 126 :: 1 :: 0 :: [])
      = .ok (⟨true, .Ping, []⟩, []) :=
  control_no_length_cap .Ping 1 0 [] (by decide) (by decide) (by decide)
    (by decide)

/-- Claim C6 (amended): `from_request` accepts a request only if the
method is `GET`, the path `/`, the version 1.1, and each of the five
required headers occurs: `Host`, `Upgrade: websocket`,
`Connection: Upgrade`, a `Sec-WebSocket-Key` whose value is
base64-decodable (no constraint on the decoded length), and
`Sec-WebSocket-Version: 13`. -/
theorem from_request_requires_headers (r : HttpRequest) (k : List Nat)
    (hacc : from_request r = some k) :
    r.method = some (strBytes "GET") ∧ r.path = some (strBytes "/")
      ∧ r.version = some 1
      ∧ (∃ hh ∈ r.headers, hsHostCond hh = true)
      ∧ (∃ hh ∈ r.headers, hsUpgradeCond hh = true)
      ∧ (∃ hh ∈ r.headers, hsConnCond hh = true)
      ∧ (∃ hh ∈ r.headers, hsKeyCond hh = true)
      ∧ (∃ hh ∈ r.headers, hsVersionCond hh = true) := by
  unfold from_request at hacc
  split at hacc
  case isFalse => exact absurd hacc (by simp)
  case isTrue hmpv =>
  dsimp only at hacc
  split at hacc
  case isFalse => exact absurd hacc (by simp)
  case isTrue hcounts =>
  obtain ⟨h1, h2, h3, h4, h5⟩ := hcounts
  refine ⟨hmpv.1, hmpv.2.1, hmpv.2.2, ?_, ?_, ?_, ?_, ?_⟩
  · by_contra hne
    push_neg at hne
    have hz := foldl_proj_stable (fun st => st.host) hsHostCond stable_host
      r.headers ⟨0, 0, 0, 0, 0, [0]⟩ fun x hx => by simpa using hne x hx
    simp only [hz] at h1
    exact absurd h1 (by norm_num)
  · by_contra hne
    push_neg at hne
    have hz := foldl_proj_stable (fun st => st.upgrade) hsUpgradeCond stable_upgrade
      r.headers ⟨0, 0, 0, 0, 0, [0]⟩ fun x hx => by simpa using hne x hx
    simp only [hz] at h2
    exact absurd h2 (by norm_num)
  · by_contra hne
    push_neg at hne
    have hz := foldl_proj_stable (fun st => st.conn) hsConnCond stable_conn
      r.headers ⟨0, 0, 0, 0, 0, [0]⟩ fun x hx => by simpa using hne x hx
    simp only [hz] at h3
    exact absurd h3 (by norm_num)
  · by_contra hne
    push_neg at hne
    have hz := foldl_proj_stable (fun st => st.key) hsKeyCond stable_key
      r.headers ⟨0, 0, 0, 0, 0, [0]⟩ fun x hx => by simpa using hne x hx
    simp only [hz] at h4
    exact absurd h4 (by norm_num)
  · by_contra hne
    push_neg at hne
    have hz := foldl_proj_stable (fun st => st.version) hsVersionCond stable_version
      r.headers ⟨0, 0, 0, 0, 0, [0]⟩ fun x hx => by simpa using hne x hx
    simp only [hz] at h5
    exact absurd h5 (by norm_num)

/-- Witness for C6 at the concrete accepted request `reqShortKey`. -/
theorem from_request_requires_headers_witness :
    reqShortKey.method = some (strBytes "GET")
      ∧ reqShortKey.path = some (strBytes "/")
      ∧ reqShortKey.version = some 1
      ∧ (∃ hh ∈ reqShortKey.headers, hsHostCond hh = true)
      ∧ (∃ hh ∈ reqShortKey.headers, hsUpgradeCond hh = true)
      ∧ (∃ hh ∈ reqShortKey.headers, hsConnCond hh = true)
      ∧ (∃ hh ∈ reqShortKey.headers, hsKeyCond hh = true)
      ∧ (∃ hh ∈ reqShortKey.headers, hsVersionCond hh = true) :=
  from_request_requires_headers reqShortKey (strBytes "AAAA") (by decide)

theorem and63 (x : Nat) : x &&& 63 = x % 64 := by
  simpa using Nat.and_pow_two_sub_one_eq_mod x 6

theorem and31 (x : Nat) : x &&& 31 = x % 32 := by
  simpa using Nat.and_pow_two_sub_one_eq_mod x 5

theorem and15 (x : Nat) : x &&& 15 = x % 16 := by
  simpa using Nat.and_pow_two_sub_one_eq_mod x 4

theorem and7 (x : Nat) : x &&& 7 = x % 8 := by
  simpa using Nat.and_pow_two_sub_one_eq_mod x 3

theorem shr6 (x : Nat) : x >>> 6 = x / 64 := by
  simpa using Nat.shiftRight_eq_div_pow x 6

theorem shr12 (x : Nat) : x >>> 12 = x / 4096 := by
  simpa using Nat.shiftRight_eq_div_pow x 12

theorem shr18 (x : Nat) : x >>> 18 = x / 262144 := by
  simpa using Nat.shiftRight_eq_div_pow x 18

theorem shl6_or (y x : Nat) (h : x < 64) : (y <<< 6) ||| x = y * 64 + x := by
  have h2 : x < 2 ^ 6 := by simpa using h
  have h3 := (Nat.mul_add_lt_is_or h2 y).symm
  rw [Nat.shiftLeft_eq, Nat.mul_comm y (2 ^ 6)]
  simpa using h3

theorem shl12_or (y x : Nat) (h : x < 4096) : (y <<< 12) ||| x = y * 4096 + x := by
  have h2 : x < 2 ^ 12 := by simpa using h
  have h3 := (Nat.mul_add_lt_is_or h2 y).symm
  rw [Nat.shiftLeft_eq, Nat.mul_comm y (2 ^ 12)]
  simpa using h3

theorem shl18_or (y x : Nat) (h : x < 262144) : (y <<< 18) ||| x = y * 262144 + x := by
  have h2 : x < 2 ^ 18 := by simpa using h
  have h3 := (Nat.mul_add_lt_is_or h2 y).symm
  rw [Nat.shiftLeft_eq, Nat.mul_comm y (2 ^ 18)]
  simpa using h3

theorem or128 (x : Nat) (h : x < 128) : 128 ||| x = 128 + x := by
  have h2 : x < 2 ^ 7 := by simpa using h
  simpa using (Nat.mul_add_lt_is_or h2 1).symm

theorem or192 (x : Nat) (h : x < 64) : 192 ||| x = 192 + x := by
  have h2 : x < 2 ^ 6 := by simpa using h
  simpa using (Nat.mul_add_lt_is_or h2 3).symm

theorem or224 (x : Nat) (h : x < 32) : 224 ||| x = 224 + x := by
  have h2 : x < 2 ^ 5 := by simpa using h
  simpa using (Nat.mul_add_lt_is_or h2 7).symm

theorem or240 (x : Nat) (h : x < 16) : 240 ||| x = 240 + x := by
  have h2 : x < 2 ^ 4 := by simpa using h
  simpa using (Nat.mul_add_lt_is_or h2 15).symm

theorem dec2_char (b b2 : Nat) (hb1 : 0xC2 ≤ b) (hb2 : b ≤ 0xDF)
    (h2 : isCont b2 = true) :
    utf8EncodeChar (((b &&& 0x1F) <<< 6) ||| (b2 &&& 0x3F)) = [b, b2] ∧
    isScalar (((b &&& 0x1F) <<< 6) ||| (b2 &&& 0x3F)) = true := by
  simp only [isCont, decide_eq_true_eq] at h2
  rw [and31, and63, shl6_or _ _ (by omega)]
  have hb' : b % 32 = b - 192 := by omega
  have hb2' : b2 % 64 = b2 - 128 := by omega
  rw [hb', hb2']
  constructor
  · unfold utf8EncodeChar
    rw [if_neg (by omega), if_pos (by omega)]
    rw [shr6, and63, or192 _ (by omega), or128 _ (by omega)]
    have d1 : ((b - 192) * 64 + (b2 - 128)) / 64 = b - 192 := by omega
    have d2 : ((b - 192) * 64 + (b2 - 128)) % 64 = b2 - 128 := by omega
    rw [d1, d2]
    have e1 : 192 + (b - 192) = b := by omega
    have e2 : 128 + (b2 - 128) = b2 := by omega
    rw [e1, e2]
  · simp only [isScalar, decide_eq_true_eq]
    left
    omega

theorem dec3_char (b b2 b3 : Nat) (hb1 : 0xE0 ≤ b) (hb2 : b ≤ 0xEF)
    (h2 : cont3Ok b b2 = true) (h3 : isCont b3 = true) :
    utf8EncodeChar (((b &&& 0xF) <<< 12) ||| ((b2 &&& 0x3F) <<< 6) ||| (b3 &&& 0x3F))
      = [b, b2, b3] ∧
    isScalar (((b &&& 0xF) <<< 12) ||| ((b2 &&& 0x3F) <<< 6) ||| (b3 &&& 0x3F))
      = true := by
  simp only [isCont, decide_eq_true_eq] at h3
  have hb2b : (128 ≤ b2 ∧ b2 ≤ 191) ∧ (b = 0xE0 → 160 ≤ b2) ∧ (b = 0xED → b2 ≤ 159) := by
    by_cases hE0 : b = 0xE0
    · simp [cont3Ok, hE0] at h2
      exact ⟨⟨by omega, by omega⟩, fun _ => by omega, fun hc => by omega⟩
    · by_cases hED : b = 0xED
      · simp [cont3Ok, hE0, hED] at h2
        exact ⟨⟨by omega, by omega⟩, fun hc => by omega, fun _ => by omega⟩
      · simp [cont3Ok, hE0, hED, isCont] at h2
        exact ⟨⟨by omega, by omega⟩, fun hc => by omega, fun hc => by omega⟩
  obtain ⟨⟨hlo2, hhi2⟩, hE0b, hEDb⟩ := hb2b
  rw [Nat.or_assoc, and15, and63, and63, shl6_or _ _ (by omega),
    shl12_or _ _ (by omega)]
  have e1 : b % 16 = b - 224 := by omega
  have e2 : b2 % 64 = b2 - 128 := by omega
  have e3 : b3 % 64 = b3 - 128 := by omega
  rw [e1, e2, e3]
  have hge : 2048 ≤ (b - 224) * 4096 + ((b2 - 128) * 64 + (b3 - 128)) := by
    by_cases hE0 : b = 0xE0
    · have := hE0b hE0
      omega
    · omega
  have hscal : (b - 224) * 4096 + ((b2 - 128) * 64 + (b3 - 128)) < 0xD800 ∨
      0xE000 ≤ (b - 224) * 4096 + ((b2 - 128) * 64 + (b3 - 128)) := by
    by_cases hED : b = 0xED
    · have := hEDb hED
      left
      omega
    · by_cases hle : b ≤ 0xEC
      · left
        omega
      · right
        omega
  constructor
  · unfold utf8EncodeChar
    rw [if_neg (by omega), if_neg (by omega), if_pos (by omega)]
    rw [shr12, shr6, and63, and63]
    have d1 : ((b - 224) * 4096 + ((b2 - 128) * 64 + (b3 - 128))) / 4096 = b - 224 := by
      omega
    have d2 : ((b - 224) * 4096 + ((b2 - 128) * 64 + (b3 - 128))) / 64 % 64 = b2 - 128 := by
      omega
    have d3 : ((b - 224) * 4096 + ((b2 - 128) * 64 + (b3 - 128))) % 64 = b3 - 128 := by
      omega
    rw [d1, d2, d3, or224 _ (by omega), or128 _ (by omega), or128 _ (by omega)]
    have f1 : 224 + (b - 224) = b := by omega
    have f2 : 128 + (b2 - 128) = b2 := by omega
    have f3 : 128 + (b3 - 128) = b3 := by omega
    rw [f1, f2, f3]
  · simp only [isScalar, decide_eq_true_eq]
    rcases hscal with h | h
    · left
      exact h
    · right
      exact ⟨h, by omega⟩

theorem dec4_char (b b2 b3 b4 : Nat) (hb1 : 0xF0 ≤ b) (hb2 : b ≤ 0xF4)
    (h2 : cont4Ok b b2 = true) (h3 : isCont b3 = true) (h4 : isCont b4 = true) :
    utf8EncodeChar (((b &&& 0x7) <<< 18) ||| ((b2 &&& 0x3F) <<< 12)
        ||| ((b3 &&& 0x3F) <<< 6) ||| (b4 &&& 0x3F)) = [b, b2, b3, b4] ∧
    isScalar (((b &&& 0x7) <<< 18) ||| ((b2 &&& 0x3F) <<< 12)
        ||| ((b3 &&& 0x3F) <<< 6) ||| (b4 &&& 0x3F)) = true := by
  simp only [isCont, decide_eq_true_eq] at h3 h4
  have hb2b : (128 ≤ b2 ∧ b2 ≤ 191) ∧ (b = 0xF0 → 144 ≤ b2) ∧ (b = 0xF4 → b2 ≤ 143) := by
    by_cases hF0 : b = 0xF0
    · simp [cont4Ok, hF0] at h2
      exact ⟨⟨by omega, by omega⟩, fun _ => by omega, fun hc => by omega⟩
    · by_cases hF4 : b = 0xF4
      · simp [cont4Ok, hF0, hF4] at h2
        exact ⟨⟨by omega, by omega⟩, fun hc => by omega, fun _ => by omega⟩
      · simp [cont4Ok, hF0, hF4, isCont] at h2
        exact ⟨⟨by omega, by omega⟩, fun hc => by omega, fun hc => by omega⟩
  obtain ⟨⟨hlo2, hhi2⟩, hF0b, hF4b⟩ := hb2b
  rw [and7, and63, and63, and63, Nat.or_assoc, Nat.or_assoc,
    shl6_or _ _ (by omega), shl12_or _ _ (by omega), shl18_or _ _ (by omega)]
  have e1 : b % 8 = b - 240 := by omega
  have e2 : b2 % 64 = b2 - 128 := by omega
  have e3 : b3 % 64 = b3 - 128 := by omega
  have e4 : b4 % 64 = b4 - 128 := by omega
  rw [e1, e2, e3, e4]
  have hge : 65536 ≤ (b - 240) * 262144
      + ((b2 - 128) * 4096 + ((b3 - 128) * 64 + (b4 - 128))) := by
    by_cases hF0 : b = 0xF0
    · have := hF0b hF0
      omega
    · omega
  have hle : (b - 240) * 262144
      + ((b2 - 128) * 4096 + ((b3 - 128) * 64 + (b4 - 128))) ≤ 0x10FFFF := by
    by_cases hF4 : b = 0xF4
    · have := hF4b hF4
      omega
    · omega
  constructor
  · unfold utf8EncodeChar
    rw [if_neg (by omega), if_neg (by omega), if_neg (by omega)]
    rw [shr18, shr12, shr6, and63, and63, and63]
    have d1 : ((b - 240) * 262144
        + ((b2 - 128) * 4096 + ((b3 - 128) * 64 + (b4 - 128)))) / 262144 = b - 240 := by
      omega
    have d2 : ((b - 240) * 262144
        + ((b2 - 128) * 4096 + ((b3 - 128) * 64 + (b4 - 128)))) / 4096 % 64 = b2 - 128 := by
      omega
    have d3 : ((b - 240) * 262144
        + ((b2 - 128) * 4096 + ((b3 - 128) * 64 + (b4 - 128)))) / 64 % 64 = b3 - 128 := by
      omega
    have d4 : ((b - 240) * 262144
        + ((b2 - 128) * 4096 + ((b3 - 128) * 64 + (b4 - 128)))) % 64 = b4 - 128 := by
      omega
    rw [d1, d2, d3, d4, or240 _ (by omega), or128 _ (by omega), or128 _ (by omega),
      or128 _ (by omega)]
    have f1 : 240 + (b - 240) = b := by omega
    have f2 : 128 + (b2 - 128) = b2 := by omega
    have f3 : 128 + (b3 - 128) = b3 := by omega
    have f4 : 128 + (b4 - 128) = b4 := by omega
    rw [f1, f2, f3, f4]
  · simp only [isScalar, decide_eq_true_eq]
    right
    exact ⟨by omega, hle⟩

theorem utf8Decode_cons_ok (b : Nat) (rest : List Nat) (c : Nat) (rest2 : List Nat)
    (h : utf8Step b rest = some (c, rest2)) :
    utf8Decode (b :: rest) = (utf8Decode rest2).map (c :: ·) := by
  simp only [utf8Decode]
  split
  · rename_i c2 rest3 heq
    rw [h] at heq
    cases heq
    rfl
  · rename_i heq
    rw [h] at heq
    cases heq

theorem utf8Decode_cons_none (b : Nat) (rest : List Nat)
    (h : utf8Step b rest = none) :
    utf8Decode (b :: rest) = none := by
  simp only [utf8Decode]
  split
  · rename_i c2 rest3 heq
    rw [h] at heq
    cases heq
  · rfl

theorem utf8Encode_cons (c : Nat) (s : List Nat) :
    utf8Encode (c :: s) = utf8EncodeChar c ++ utf8Encode s := by
  simp [utf8Encode]

theorem utf8Step_sound (b : Nat) (rest : List Nat) (c : Nat) (rest2 : List Nat)
    (h : utf8Step b rest = some (c, rest2)) :
    utf8EncodeChar c ++ rest2 = b :: rest ∧ isScalar c = true := by
  unfold utf8Step at h
  split at h
  · rename_i hb
    simp only [Option.some.injEq, Prod.mk.injEq] at h
    obtain ⟨rfl, rfl⟩ := h
    refine ⟨?_, ?_⟩
    · unfold utf8EncodeChar
      rw [if_pos (by omega)]
      rfl
    · simp only [isScalar, decide_eq_true_eq]
      left
      omega
  · rename_i hb1
    split at h
    · rename_i hb2
      split at h
      · rename_i b2 rest2a
        split at h
        · rename_i hcont
          simp only [Option.some.injEq, Prod.mk.injEq] at h
          obtain ⟨rfl, rfl⟩ := h
          obtain ⟨he, hscal⟩ := dec2_char b b2 (by omega) (by omega) hcont
          exact ⟨by rw [he]; rfl, hscal⟩
        · exact Option.noConfusion h
      · exact Option.noConfusion h
    · rename_i hb2n
      split at h
      · rename_i hb3
        split at h
        · rename_i b2 b3 rest3a
          split at h
          · rename_i hcond
            simp only [Option.some.injEq, Prod.mk.injEq] at h
            obtain ⟨rfl, rfl⟩ := h
            obtain ⟨he, hscal⟩ := dec3_char b b2 b3 (by omega) (by omega)
              hcond.1 hcond.2
            exact ⟨by rw [he]; rfl, hscal⟩
          · exact Option.noConfusion h
        · exact Option.noConfusion h
      · rename_i hb3n
        split at h
        · rename_i hb4
          split at h
          · rename_i b2 b3 b4 rest4a
            split at h
            · rename_i hcond
              simp only [Option.some.injEq, Prod.mk.injEq] at h
              obtain ⟨rfl, rfl⟩ := h
              obtain ⟨he, hscal⟩ := dec4_char b b2 b3 b4 (by omega) (by omega)
                hcond.1 hcond.2.1 hcond.2.2
              exact ⟨by rw [he]; rfl, hscal⟩
            · exact Option.noConfusion h
          · exact Option.noConfusion h
        · exact Option.noConfusion h

theorem utf8Decode_sound (raw : List Nat) : ∀ (s : List Nat),
    utf8Decode raw = some s →
    utf8Encode s = raw ∧ ∀ c ∈ s, isScalar c = true := by
  induction raw using utf8Decode.induct with
  | case1 =>
    intro s hs
    simp only [utf8Decode, Option.some.injEq] at hs
    subst hs
    exact ⟨rfl, by simp⟩
  | case2 b rest c rest2 hstep ih =>
    intro s hs
    rw [utf8Decode_cons_ok b rest c rest2 hstep, Option.map_eq_some'] at hs
    obtain ⟨s2, hd, hcons⟩ := hs
    subst hcons
    obtain ⟨henc, hsc⟩ := ih s2 hd
    obtain ⟨hech, hscal⟩ := utf8Step_sound b rest c rest2 hstep
    constructor
    · rw [utf8Encode_cons, henc, hech]
    · intro x hx
      rcases List.mem_cons.mp hx with hx | hx
      · subst hx
        exact hscal
      · exact hsc x hx
  | case3 b rest hstep =>
    intro s hs
    rw [utf8Decode_cons_none b rest hstep] at hs
    exact Option.noConfusion hs

theorem cont3Ok_of (c : Nat) (h1 : 0x800 ≤ c) (h2 : c < 0x10000)
    (h3 : c < 0xD800 ∨ 0xE000 ≤ c) :
    cont3Ok (224 + c / 4096) (128 + c / 64 % 64) = true := by
  unfold cont3Ok
  by_cases h0 : 224 + c / 4096 = 0xE0
  · rw [if_pos h0]
    simp only [decide_eq_true_eq]
    omega
  · rw [if_neg h0]
    by_cases hD : 224 + c / 4096 = 0xED
    · rw [if_pos hD]
      simp only [decide_eq_true_eq]
      omega
    · rw [if_neg hD]
      simp only [isCont, decide_eq_true_eq]
      omega

theorem cont4Ok_of (c : Nat) (h1 : 0x10000 ≤ c) (h2 : c ≤ 0x10FFFF) :
    cont4Ok (240 + c / 262144) (128 + c / 4096 % 64) = true := by
  unfold cont4Ok
  by_cases h0 : 240 + c / 262144 = 0xF0
  · rw [if_pos h0]
    simp only [decide_eq_true_eq]
    omega
  · rw [if_neg h0]
    by_cases hF : 240 + c / 262144 = 0xF4
    · rw [if_pos hF]
      simp only [decide_eq_true_eq]
      omega
    · rw [if_neg hF]
      simp only [isCont, decide_eq_true_eq]
      omega

theorem utf8Step_eval2 (b b2 : Nat) (rest : List Nat) (hb1 : ¬ b ≤ 0x7F)
    (hb2 : 0xC2 ≤ b ∧ b ≤ 0xDF) (hc : isCont b2 = true) :
    utf8Step b (b2 :: rest)
      = some (((b &&& 0x1F) <<< 6) ||| (b2 &&& 0x3F), rest) := by
  unfold utf8Step
  rw [if_neg hb1, if_pos hb2]
  show (if isCont b2 = true then
      some (((b &&& 0x1F) <<< 6) ||| (b2 &&& 0x3F), rest) else none) = _
  rw [if_pos hc]

theorem utf8Step_eval3 (b b2 b3 : Nat) (rest : List Nat)
    (hb : 0xE0 ≤ b ∧ b ≤ 0xEF) (hc : cont3Ok b b2 = true ∧ isCont b3 = true) :
    utf8Step b (b2 :: b3 :: rest)
      = some (((b &&& 0xF) <<< 12) ||| ((b2 &&& 0x3F) <<< 6) ||| (b3 &&& 0x3F),
          rest) := by
  unfold utf8Step
  rw [if_neg (by omega), if_neg (by omega), if_pos hb]
  show (if cont3Ok b b2 = true ∧ isCont b3 = true then
      some (((b &&& 0xF) <<< 12) ||| ((b2 &&& 0x3F) <<< 6) ||| (b3 &&& 0x3F), rest)
    else none) = _
  rw [if_pos hc]

theorem utf8Step_eval4 (b b2 b3 b4 : Nat) (rest : List Nat)
    (hb : 0xF0 ≤ b ∧ b ≤ 0xF4)
    (hc : cont4Ok b b2 = true ∧ isCont b3 = true ∧ isCont b4 = true) :
    utf8Step b (b2 :: b3 :: b4 :: rest)
      = some (((b &&& 0x7) <<< 18) ||| ((b2 &&& 0x3F) <<< 12)
          ||| ((b3 &&& 0x3F) <<< 6) ||| (b4 &&& 0x3F), rest) := by
  unfold utf8Step
  rw [if_neg (by omega), if_neg (by omega), if_neg (by omega), if_pos hb]
  show (if cont4Ok b b2 = true ∧ isCont b3 = true ∧ isCont b4 = true then
      some (((b &&& 0x7) <<< 18) ||| ((b2 &&& 0x3F) <<< 12)
        ||| ((b3 &&& 0x3F) <<< 6) ||| (b4 &&& 0x3F), rest)
    else none) = _
  rw [if_pos hc]

theorem utf8Step_complete (c : Nat) (rest : List Nat) (hscal : isScalar c = true) :
    ∃ b tail, utf8EncodeChar c = b :: tail
      ∧ utf8Step b (tail ++ rest) = some (c, rest) := by
  simp only [isScalar, decide_eq_true_eq] at hscal
  by_cases h1 : c < 0x80
  · refine ⟨c, [], ?_, ?_⟩
    · unfold utf8EncodeChar
      rw [if_pos h1]
    · simp only [List.nil_append]
      unfold utf8Step
      rw [if_pos (by omega)]
  · by_cases h2 : c < 0x800
    · refine ⟨192 + c / 64, [128 + c % 64], ?_, ?_⟩
      · unfold utf8EncodeChar
        rw [if_neg h1, if_pos h2, shr6, and63, or192 _ (by omega), or128 _ (by omega)]
      · simp only [List.cons_append, List.nil_append]
        rw [utf8Step_eval2 _ _ _ (by omega) (by omega)
          (by simp only [isCont, decide_eq_true_eq]; omega)]
        rw [and31, and63, shl6_or _ _ (by omega)]
        have hcv : (192 + c / 64) % 32 * 64 + (128 + c % 64) % 64 = c := by omega
        rw [hcv]
    · by_cases h3 : c < 0x10000
      · refine ⟨224 + c / 4096, [128 + c / 64 % 64, 128 + c % 64], ?_, ?_⟩
        · unfold utf8EncodeChar
          rw [if_neg h1, if_neg h2, if_pos h3, shr12, shr6, and63, and63,
            or224 _ (by omega), or128 _ (by omega), or128 _ (by omega)]
        · simp only [List.cons_append, List.nil_append]
          rw [utf8Step_eval3 _ _ _ _ (by omega)
            ⟨cont3Ok_of c (by omega) h3 (by omega),
             by simp only [isCont, decide_eq_true_eq]; omega⟩]
          rw [and15, and63, and63, Nat.or_assoc, shl6_or _ _ (by omega),
            shl12_or _ _ (by omega)]
          have hcv : (224 + c / 4096) % 16 * 4096
              + ((128 + c / 64 % 64) % 64 * 64 + (128 + c % 64) % 64) = c := by omega
          rw [hcv]
      · refine ⟨240 + c / 262144,
          [128 + c / 4096 % 64, 128 + c / 64 % 64, 128 + c % 64], ?_, ?_⟩
        · unfold utf8EncodeChar
          rw [if_neg h1, if_neg h2, if_neg h3, shr18, shr12, shr6, and63, and63,
            and63, or240 _ (by omega), or128 _ (by omega), or128 _ (by omega),
            or128 _ (by omega)]
        · simp only [List.cons_append, List.nil_append]
          rw [utf8Step_eval4 _ _ _ _ _ (by omega)
            ⟨cont4Ok_of c (by omega) (by omega),
             by simp only [isCont, decide_eq_true_eq]; omega,
             by simp only [isCont, decide_eq_true_eq]; omega⟩]
          rw [and7, and63, and63, and63, Nat.or_assoc, Nat.or_assoc,
            shl6_or _ _ (by omega), shl12_or _ _ (by omega), shl18_or _ _ (by omega)]
          have hcv : (240 + c / 262144) % 8 * 262144
              + ((128 + c / 4096 % 64) % 64 * 4096
                 + ((128 + c / 64 % 64) % 64 * 64 + (128 + c % 64) % 64)) = c := by
            omega
          rw [hcv]

theorem utf8Decode_encodeChar (c : Nat) (rest : List Nat) (hscal : isScalar c = true) :
    utf8Decode (utf8EncodeChar c ++ rest) = (utf8Decode rest).map (c :: ·) := by
  obtain ⟨b, tail, he, hstep⟩ := utf8Step_complete c rest hscal
  rw [he, List.cons_append]
  exact utf8Decode_cons_ok b (tail ++ rest) c rest hstep

theorem utf8Decode_encode (s : List Nat) (hs : ∀ c ∈ s, isScalar c = true) :
    utf8Decode (utf8Encode s) = some s := by
  induction s with
  | nil => simp [utf8Encode, utf8Decode]
  | cons c t ih =>
    rw [utf8Encode_cons, utf8Decode_encodeChar c _ (hs c (by simp)),
      ih fun x hx => hs x (by simp [hx])]
    rfl

/-- Claim C10: every `Text` obtained through the public constructors
holds valid UTF-8 bytes: its unchecked `as_str` view is defined and
decodes to the unique string whose UTF-8 encoding is exactly the
stored bytes; and `TryFrom<&[u8]>` succeeds exactly on the byte lists
that are the UTF-8 encoding of some sequence of Unicode scalar
values. -/
theorem text_utf8_invariant :
    (∀ (raw : List Nat) (t : Text), textTryFromBytes raw = some t →
      ∃ s, textAsStr t = some s ∧ utf8Encode s = t.bytes) ∧
    (∀ s : List Nat, (∀ c ∈ s, isScalar c = true) →
      textAsStr (textFromStr s) = some s
        ∧ (textFromStr s).bytes = utf8Encode s) ∧
    (∀ raw : List Nat, (textTryFromBytes raw).isSome ↔
      ∃ s, (∀ c ∈ s, isScalar c = true) ∧ utf8Encode s = raw) := by
  refine ⟨?_, ?_, ?_⟩
  · intro raw t h
    unfold textTryFromBytes at h
    cases hd : utf8Decode raw with
    | some s =>
      rw [hd] at h
      simp only [Option.some.injEq] at h
      subst h
      exact ⟨s, hd, (utf8Decode_sound raw s hd).1⟩
    | none =>
      rw [hd] at h
      simp at h
  · intro s hs
    exact ⟨utf8Decode_encode s hs, rfl⟩
  · intro raw
    constructor
    · intro h
      unfold textTryFromBytes at h
      cases hd : utf8Decode raw with
      | some s =>
        obtain ⟨henc, hsc⟩ := utf8Decode_sound raw s hd
        exact ⟨s, hsc, henc⟩
      | none =>
        rw [hd] at h
        simp at h
    · intro ⟨s, hsc, henc⟩
      unfold textTryFromBytes
      rw [← henc, utf8Decode_encode s hsc]
      rfl

/-- Witness for C10 at the bytes `[72, 195, 169]` (the UTF-8 encoding
of the two scalars `[72, 233]`). -/
theorem text_utf8_invariant_witness :
    ∃ s, textAsStr ⟨[72, 195, 169]⟩ = some s ∧ utf8Encode s = [72, 195, 169] := by
  apply text_utf8_invariant.1 [72, 195, 169] ⟨[72, 195, 169]⟩
  have he : utf8Encode [72, 233] = [72, 195, 169] := by decide
  have hv := utf8Decode_encode [72, 233] (by decide)
  rw [he] at hv
  simp [textTryFromBytes, hv]
